import Mathlib

/-!
Shallow embedding of the SEEDS simulation-engine core
(src/seeds/ActionManager.py, src/seeds/Experiment.py,
src/seeds/plugins/topology/MooreTopology.py), together with theorems
settling the specification claims about it.

Conventions of the embedding:
* Python 2 machine-independent integers are `Int` (node ids and loop
  counters that are provably non-negative are sometimes `Nat`).
* Python `a % b` for `b > 0` returns a value in `[0, b)`; Lean's `Int`
  `%` (`Int.emod`) agrees on positive moduli.  Python 2 `a / b` on ints
  is floor division; Lean's `Int` `/` (`Int.ediv`) agrees for positive
  divisors.  Both are used only with positive right operands here.
* Side-effecting calls on external collaborators (scheduler, resources,
  population) are recorded in an explicit event log.
* Fallible code (`raise`) is `Except`.
-/

namespace Seeds

/-! ## ActionManager (src/seeds/ActionManager.py)

The scheduler state is the Python list `self.actions`, holding tuples
`(action.priority, action)` maintained by `heapq.heappush`.  Python 2
compares such tuples lexicographically; the second components (Action
objects with no `__cmp__`) compare by their runtime memory address.
`addr` models that address and `aid` models the action's identity
(which action it is), which is what the comparison does NOT see. -/

structure ActionEntry where
  priority : Int
  addr : Nat
  aid : Nat
deriving DecidableEq

/-- The Python 2 `<` on the tuples `(action.priority, action)` stored in
`self.actions`: lexicographic on priority, then on the object address. -/
def entryLt (e f : ActionEntry) : Bool :=
  decide (e.priority < f.priority ∨ (e.priority = f.priority ∧ e.addr < f.addr))

/-- Order used by `sorted(self.actions, reverse=True)`: the reverse of
`entryLt`, i.e. descending lexicographic by (priority, address). -/
def descLe (e f : ActionEntry) : Bool :=
  ! entryLt e f

/-- The loop of `heapq._siftdown(heap, 0, pos)` from the Python 2
standard library, as called by `heapq.heappush`: while `pos > 0`,
compare `newitem` with the parent; if smaller, move the parent down and
continue from the parent's position, else stop; finally store `newitem`
at the stopping position. -/
def siftLoop {α : Type} (lt : α → α → Bool) (heap : List α) (newitem : α)
    (pos : Nat) : List α :=
  if h : 0 < pos then
    let parentpos := (pos - 1) / 2
    let parent := heap.getD parentpos newitem
    if lt newitem parent then
      siftLoop lt (heap.set pos parent) newitem parentpos
    else
      heap.set pos newitem
  else
    heap.set pos newitem
termination_by pos
decreasing_by
  exact Nat.lt_of_le_of_lt (Nat.div_le_self _ _) (Nat.sub_lt h Nat.one_pos)

/-- `heapq.heappush(heap, item)`: append `item`, then sift it up from
the last position. -/
def heappush (heap : List ActionEntry) (item : ActionEntry) : List ActionEntry :=
  siftLoop entryLt (heap ++ [item]) item heap.length

/-- `ActionManager.add_action`: `heapq.heappush(self.actions, (action.priority, action))`. -/
def add_action (actions : List ActionEntry) (a : ActionEntry) : List ActionEntry :=
  heappush actions a

/-- The state `self.actions` after a sequence of `add_action` calls,
starting from the empty list set up in `ActionManager.__init__`. -/
def actionsAfter (adds : List ActionEntry) : List ActionEntry :=
  adds.foldl add_action []

/-- The order in which `ActionManager.update` invokes `a.update()`:
`sorted(self.actions, reverse=True)` (stable sort by the reversed tuple
`<`, i.e. descending lexicographic by (priority, address)). -/
def updateOrder (actions : List ActionEntry) : List ActionEntry :=
  actions.mergeSort descLe

/-- The order in which `ActionManager.teardown` invokes `a.teardown()`:
the same expression `sorted(self.actions, reverse=True)`. -/
def teardownOrder (actions : List ActionEntry) : List ActionEntry :=
  actions.mergeSort descLe

/-! ## MooreTopology (src/seeds/plugins/topology/MooreTopology.py) -/

namespace MooreTopology

/-- `MooreTopology.row`: `nodeid / self.size` (Python 2 floor division;
node ids may in principle be any int, `size` is positive). -/
def row (size : Nat) (nodeid : Int) : Int :=
  nodeid / (size : Int)

/-- `MooreTopology.column`: `nodeid % self.size` (Python `%`, in
`[0, size)` for positive `size`). -/
def column (size : Nat) (nodeid : Int) : Int :=
  nodeid % (size : Int)

/-- `MooreTopology.node_id`: `row * self.size + col`. -/
def node_id (size : Nat) (r c : Int) : Int :=
  r * (size : Int) + c

/-- Python `xrange(a, b)` over signed bounds: the list `a, a+1, ..., b-1`. -/
def xrange (a b : Int) : List Int :=
  (List.range (b - a).toNat).map (fun i => a + (i : Int))

/-- `networkx.Graph.add_edge(u, v)` observed through the edge set: the
graph is simple and undirected, so adding an edge already present (in
either orientation) is a no-op; otherwise the edge is appended. -/
def add_edge (edges : List (Int × Int)) (u v : Int) : List (Int × Int) :=
  if (u, v) ∈ edges ∨ (v, u) ∈ edges then edges else edges ++ [(u, v)]

/-- Body of the innermost loop of `MooreTopology.moore_2d_graph` for a
focal node `n` with row `myrow`, column `mycol`, candidate row `r` and
candidate column `c`: skip out-of-range columns when not periodic, wrap
modulo the grid, and add the edge when the candidate is not `n` itself.
`rows = columns = self.size` at the call site in `__init__`. -/
def candidateStep (size : Nat) (periodic : Bool) (n : Int)
    (edges : List (Int × Int)) (r c : Int) : List (Int × Int) :=
  if periodic = false ∧ (c < 0 ∨ c ≥ (size : Int)) then
    edges
  else
    let nid := node_id size (r % (size : Int)) (c % (size : Int))
    if nid ≠ n then
      let neighbor_id := (r % (size : Int)) * (size : Int) + (c % (size : Int))
      add_edge edges n neighbor_id
    else
      edges

/-- Body of the middle loop of `moore_2d_graph` for a focal node `n` and
a candidate row `r`: skip out-of-range rows when not periodic, then run
the column loop `xrange(mycol - radius, mycol + radius + 1)`. -/
def rowStep (size : Nat) (radius : Nat) (periodic : Bool) (n : Int)
    (edges : List (Int × Int)) (r : Int) : List (Int × Int) :=
  if periodic = false ∧ (r < 0 ∨ r ≥ (size : Int)) then
    edges
  else
    (xrange (column size n - (radius : Int)) (column size n + (radius : Int) + 1)).foldl
      (fun es c => candidateStep size periodic n es r c) edges

/-- `MooreTopology.moore_2d_graph(rows, columns, radius, periodic)` with
`rows = columns = self.size`, observed through its edge list: for each
node `n` of `range(rows * columns)`, loop over the candidate rows
`xrange(myrow - radius, myrow + radius + 1)` and columns. -/
def moore_2d_graph (size : Nat) (radius : Nat) (periodic : Bool) : List (Int × Int) :=
  (List.range (size * size)).foldl
    (fun edges n0 =>
      let n : Int := (n0 : Int)
      (xrange (row size n - (radius : Int)) (row size n + (radius : Int) + 1)).foldl
        (fun es r => rowStep size radius periodic n es r) edges)
    []

/-- Neighbors of node `n` in an undirected edge list: the other
endpoint of every edge incident to `n`. -/
def neighbors (edges : List (Int × Int)) (n : Int) : List Int :=
  edges.filterMap (fun p =>
    if p.1 = n then some p.2 else if p.2 = n then some p.1 else none)

/-- Two directed pairs denote the same undirected edge. -/
def sameEdge (p q : Int × Int) : Prop :=
  p = q ∨ (p.1 = q.2 ∧ p.2 = q.1)

instance (p q : Int × Int) : Decidable (sameEdge p q) := by
  unfold sameEdge; infer_instance

/-- The edge list describes a simple graph: no self-loop, and no
unordered pair of endpoints occurs twice. -/
def SimpleEdgeList (E : List (Int × Int)) : Prop :=
  (∀ p ∈ E, p.1 ≠ p.2) ∧ E.Pairwise (fun p q => ¬ sameEdge p q)

end MooreTopology

/-! ## Experiment (src/seeds/Experiment.py) -/

/-- Typed errors raised by the Experiment (seeds/SEEDSError.py is not
under src/; the constructors and payloads follow the spec's error
taxonomy: ConfigurationError and ResourceNotDefinedError carry a
message / the offending name). -/
inductive SeedsError where
  | ConfigurationError (msg : String)
  | ResourceNotDefinedError (name : String)
deriving DecidableEq

/-- Modelled from the spec: the Resource collaborator
(seeds/Resource.py is outside src/).  Per the spec it is a named
(string-keyed) collaborator with its own update/teardown lifecycle;
`name` is the configured label and `ctorIndex` records which
construction produced this object (so "first-constructed" is statable). -/
structure Resource where
  name : String
  ctorIndex : Nat
deriving DecidableEq

/-- Observable side effects of one `Experiment.update` cycle on the
external collaborators. -/
inductive Event where
  | schedulerUpdate
  | resourceUpdate (name : String)
  | populationUpdate
deriving DecidableEq

/-- The configuration values the embedded code reads.  `sections` is
the list of section names present in the config file; `seed`, `epochs`
are `getint('Experiment', ..., default=-1)`; `resources` is
`get('Experiment', 'resources')` which is `None` when absent. -/
structure Config where
  sections : List String
  seed : Int := -1
  epochs : Int := -1
  resources : Option String := none
deriving DecidableEq

/-- Python `s.strip()`: remove leading and trailing whitespace. -/
def pyStrip (s : String) : String :=
  String.mk (((s.data.dropWhile Char.isWhitespace).reverse.dropWhile
    Char.isWhitespace).reverse)

/-- Python `s.split(',')`: split at every comma, keeping empty pieces. -/
def splitOnComma (s : String) : List String :=
  (s.data.foldr
    (fun ch acc =>
      if ch = ',' then [] :: acc else (ch :: acc.headD []) :: acc.tail)
    [[]]).map String.mk

/-- State of an `Experiment` object.  `rngSeed` is the state of the
shared random-number source after `random.seed(self.seed)` (the Python
`random` module is external; its state is fully determined by the seed
value passed to `random.seed`).  `warnings` records the diagnostics
printed by `setup`.  The `uuid` and the free-form `data` dict of the
source are omitted: no embedded code path reads them. -/
structure Experiment where
  config : Config
  epoch : Nat
  is_setup : Bool
  proceed : Bool
  seed : Int
  resources : List (String × Resource)
  experiment_epochs : Option Int
  rngSeed : Option Int
  warnings : List String
  log : List Event
deriving DecidableEq

/-- `Experiment.__init__(configfile, seed=-1)`: store the config and the
constructor seed, zero the epoch, set `proceed`, and raise
`ConfigurationError` when the `[Experiment]` section is missing. -/
def initExperiment (cfg : Config) (seed : Int) : Except SeedsError Experiment :=
  if "Experiment" ∈ cfg.sections then
    .ok { config := cfg, epoch := 0, is_setup := false, proceed := true,
          seed := seed, resources := [], experiment_epochs := none,
          rngSeed := none, warnings := [], log := [] }
  else
    .error (.ConfigurationError "Configuration section Experiment not defined")

/-- The resource-loading loop of `Experiment.setup`: for each name in
the parsed list, require the section `Resource:<name>` (else fatal
`ConfigurationError`), construct a `Resource` (construction counter
`i`), and register it under `r.name` unless that key is already present,
in which case print a warning and skip the duplicate. -/
def loadResourcesGo (sections : List String) : List String → Nat →
    List (String × Resource) → List String →
    Except SeedsError (List (String × Resource) × List String)
  | [], _, acc, warns => .ok (acc, warns)
  | res :: rest, i, acc, warns =>
    if ("Resource:" ++ res) ∈ sections then
      let r : Resource := ⟨res, i⟩
      if (acc.lookup r.name).isNone then
        loadResourcesGo sections rest (i + 1) (acc ++ [(r.name, r)]) warns
      else
        loadResourcesGo sections rest (i + 1) acc
          (warns ++ ["Warning: Resource " ++ res ++ " listed twice.  Skipping duplicates."])
    else
      .error (.ConfigurationError ("No configuration for resource " ++ res))

/-- The parsed resource list of `Experiment.setup`:
`[res.strip() for res in resourcestring.split(',')]`, guarded by
`if resourcestring:` (both `None` and the empty string are falsy). -/
def resourceList (cfg : Config) : List String :=
  match cfg.resources with
  | none => []
  | some str => if str = "" then [] else (splitOnComma str).map pyStrip

/-- The resource-initialization phase of `Experiment.setup`. -/
def loadResources (cfg : Config) :
    Except SeedsError (List (String × Resource) × List String) :=
  loadResourcesGo cfg.sections (resourceList cfg) 0 [] []

/-- The seed resolution at the top of `Experiment.setup`: keep the
constructor-supplied seed unless it is -1, else take the configured seed
unless that is -1, else take `t = int(time.time()*10)` (the time-derived
seed at decisecond resolution). -/
def resolveSeed (t : Int) (s : Experiment) : Int :=
  if s.seed = -1 then
    (if s.config.seed ≠ -1 then s.config.seed else t)
  else s.seed

/-- The opening phase of `Experiment.setup`, in source order: resolve
the seed, call `random.seed(self.seed)` (recorded in `rngSeed`), write
the resolved seed back into the config, and read `experiment_epochs`
from the config. -/
def seedPhase (t : Int) (s : Experiment) : Experiment :=
  { s with seed := resolveSeed t s, rngSeed := some (resolveSeed t s),
           config := { s.config with seed := resolveSeed t s },
           experiment_epochs := some s.config.epochs }

/-- `Experiment.setup`: the seed phase, then resource loading.  The
plugin manager, the Population and the ActionManager constructions that
follow in the source act only on external collaborators (plugin
directories, the population, the data directory) and are not observed by
any embedded state; finally `is_setup` is set. -/
def Experiment.setup (t : Int) (s : Experiment) : Except SeedsError Experiment :=
  match loadResources (seedPhase t s).config with
  | .error e => .error e
  | .ok (res, warns) =>
    let s1 := seedPhase t s
    .ok { s1 with resources := res, warnings := s1.warnings ++ warns,
                  is_setup := true }

/-- The body of `Experiment.update` once set up: scheduler update, each
resource's update (dict iteration order: registration order), population
update, `epoch += 1`, then set `proceed = False` when
`experiment_epochs != -1 and epoch >= experiment_epochs`. -/
def Experiment.updateReady (s : Experiment) : Experiment :=
  let log1 := s.log ++ [Event.schedulerUpdate]
    ++ s.resources.map (fun p => Event.resourceUpdate p.1)
    ++ [Event.populationUpdate]
  let epoch1 := s.epoch + 1
  let ee := s.experiment_epochs.getD (-1)
  let proceed1 := if ee ≠ -1 ∧ (epoch1 : Int) ≥ ee then false else s.proceed
  { s with log := log1, epoch := epoch1, proceed := proceed1 }

/-- `Experiment.update`: implicit `setup()` when not yet set up, then
the update cycle. -/
def Experiment.update (t : Int) (s : Experiment) : Except SeedsError Experiment :=
  match (if s.is_setup then .ok s else s.setup t) with
  | .error e => .error e
  | .ok s1 => .ok s1.updateReady

/-- `k` consecutive calls to `Experiment.update`. -/
def Experiment.runUpdates (t : Int) (s : Experiment) : Nat → Except SeedsError Experiment
  | 0 => .ok s
  | k + 1 =>
    match s.update t with
    | .error e => .error e
    | .ok s1 => s1.runUpdates t k

/-- `Experiment.next`: `raise StopIteration` (here: `none`) when
`proceed` is false, else update and return the new epoch. -/
def Experiment.next (t : Int) (s : Experiment) :
    Except SeedsError (Option (Nat × Experiment)) :=
  if s.proceed = false then
    .ok none
  else
    match s.update t with
    | .error e => .error e
    | .ok s1 => .ok (some (s1.epoch, s1))

/-- The sequence of epoch values produced by iterating the Experiment
(`for epoch in e`), i.e. by repeated `next()`, until exhaustion or
until `fuel` calls have been made. -/
def Experiment.iterEpochs (t : Int) (s : Experiment) : Nat → List Nat
  | 0 => []
  | fuel + 1 =>
    match s.next t with
    | .ok (some (v, s1)) => v :: s1.iterEpochs t fuel
    | _ => []

/-- `Experiment.end`: set `proceed` to false (`end` is a Lean keyword,
hence the name). -/
def Experiment.endExperiment (s : Experiment) : Experiment :=
  { s with proceed := false }

/-- `Experiment.is_resource_defined`. -/
def Experiment.is_resource_defined (s : Experiment) (name : String) : Bool :=
  (s.resources.lookup name).isSome

/-- `Experiment.get_resource`: the resource registered under `name`, or
`ResourceNotDefinedError`. -/
def Experiment.get_resource (s : Experiment) (name : String) :
    Except SeedsError Resource :=
  match s.resources.lookup name with
  | some r => .ok r
  | none => .error (.ResourceNotDefinedError name)

/-! ## Helper lemmas about the scheduler queue -/

/-- Overwriting position `i` with the element at position `j` and then
position `j` with `x` permutes to just overwriting position `i` with `x`. -/
theorem set_swap_perm {α : Type} [DecidableEq α] (l : List α) (i j : Nat)
    (hij : i ≠ j) (hi : i < l.length) (hj : j < l.length) (x : α) :
    ((l.set i (l[j])).set j x).Perm (l.set i x) := by
  rw [List.perm_iff_count]
  intro y
  have hj1 : j < (l.set i (l[j])).length := by simpa using hj
  have e1 := List.count_set (l[j]) y l i hi
  have e2 := List.count_set x y (l.set i (l[j])) j hj1
  have e3 := List.count_set x y l i hi
  have hget : (l.set i (l[j]))[j] = l[j] := List.getElem_set_ne hij hj1
  rw [hget] at e2
  have hle : (if (l[i] == y) = true then 1 else 0) ≤ List.count y l := by
    split
    · next hc => exact List.count_pos_iff.2 ((beq_iff_eq.1 hc) ▸ List.getElem_mem hi)
    · exact Nat.zero_le _
  omega

/-- Setting the position just past `heap` in `heap ++ [a]` replaces `a`. -/
theorem set_append_singleton {α : Type} (heap : List α) (a x : α) :
    (heap ++ [a]).set heap.length x = heap ++ [x] := by
  induction heap with
  | nil => rfl
  | cons h t ih => simp [ih]

/-- The sift-up loop of `heappush` only permutes the heap contents: its
result is a permutation of the heap with `newitem` written at `pos`. -/
theorem siftLoop_perm {α : Type} [DecidableEq α] (lt : α → α → Bool) (newitem : α) :
    ∀ (pos : Nat) (heap : List α), pos < heap.length →
      (siftLoop lt heap newitem pos).Perm (heap.set pos newitem) := by
  intro pos
  induction pos using Nat.strong_induction_on with
  | _ pos ih =>
    intro heap hpos
    unfold siftLoop
    split
    case isTrue h =>
      simp only
      split
      case isTrue hlt =>
        have hpp : (pos - 1) / 2 < pos :=
          Nat.lt_of_le_of_lt (Nat.div_le_self _ _) (Nat.sub_lt h Nat.one_pos)
        have hplen : (pos - 1) / 2 <
            (heap.set pos (heap.getD ((pos - 1) / 2) newitem)).length := by
          simp only [List.length_set]
          omega
        have hrec := ih _ hpp _ hplen
        refine hrec.trans ?_
        have hgd : heap.getD ((pos - 1) / 2) newitem = heap[(pos - 1) / 2] :=
          List.getD_eq_getElem heap newitem (by omega)
        rw [hgd]
        exact set_swap_perm heap pos ((pos - 1) / 2) (by omega) hpos (by omega) newitem
      case isFalse hlt => exact List.Perm.refl _
    case isFalse h => exact List.Perm.refl _

/-- `heappush` adds exactly the pushed item to the queue contents. -/
theorem heappush_perm (heap : List ActionEntry) (item : ActionEntry) :
    (heappush heap item).Perm (item :: heap) := by
  unfold heappush
  have h1 : heap.length < (heap ++ [item]).length := by simp
  have h2 := siftLoop_perm entryLt item heap.length (heap ++ [item]) h1
  rw [set_append_singleton] at h2
  exact h2.trans (List.perm_append_singleton item heap)

/-- A sequence of `add_action` calls registers exactly the added entries. -/
theorem foldl_add_action_perm (adds : List ActionEntry) :
    ∀ acc, (adds.foldl add_action acc).Perm (acc ++ adds) := by
  induction adds with
  | nil => intro acc; simp
  | cons a rest ih =>
    intro acc
    have h1 : (add_action acc a).Perm (acc ++ [a]) :=
      (heappush_perm acc a).trans (List.perm_append_singleton a acc).symm
    have h2 := (ih (add_action acc a)).trans (h1.append_right rest)
    simpa using h2

/-- The contents of the scheduler queue after registration. -/
theorem actionsAfter_perm (adds : List ActionEntry) :
    (actionsAfter adds).Perm adds := by
  simpa using foldl_add_action_perm adds []

/-- The descending tuple order used by `sorted(..., reverse=True)` is
transitive. -/
theorem descLe_trans (a b c : ActionEntry) :
    descLe a b = true → descLe b c = true → descLe a c = true := by
  simp only [descLe, entryLt, Bool.not_eq_true', decide_eq_false_iff_not]
  intro h1 h2
  omega

/-- The descending tuple order is total. -/
theorem descLe_total (a b : ActionEntry) :
    (descLe a b || descLe b a) = true := by
  simp only [descLe, entryLt, Bool.or_eq_true, Bool.not_eq_true',
    decide_eq_false_iff_not]
  omega

/-- The visit order of `ActionManager.update` is a permutation of the
queue contents. -/
theorem updateOrder_perm (actions : List ActionEntry) :
    (updateOrder actions).Perm actions :=
  List.mergeSort_perm actions descLe

/-- The visit order of `ActionManager.update` is sorted by the
descending tuple order. -/
theorem updateOrder_sorted (actions : List ActionEntry) :
    (updateOrder actions).Pairwise (fun x y => descLe x y = true) :=
  List.sorted_mergeSort descLe_trans descLe_total actions

/-! ## Helper lemmas for the topology builder -/

/-- A fold preserves any invariant its step function preserves. -/
theorem foldl_preserve {α β : Type} {P : α → Prop} {f : α → β → α}
    (hf : ∀ a b, P a → P (f a b)) : ∀ (l : List β) (a : α), P a → P (l.foldl f a) := by
  intro l
  induction l with
  | nil => intro a ha; exact ha
  | cons b rest ih => intro a ha; exact ih _ (hf a b ha)

namespace MooreTopology

/-- `add_edge` keeps the edge list simple when the new edge is no loop. -/
theorem add_edge_simple (E : List (Int × Int)) (u v : Int) (huv : u ≠ v)
    (hE : SimpleEdgeList E) : SimpleEdgeList (add_edge E u v) := by
  unfold add_edge
  split
  · exact hE
  · next hmem =>
    push_neg at hmem
    obtain ⟨h1, h2⟩ := hmem
    obtain ⟨hloop, hdup⟩ := hE
    constructor
    · intro p hp
      rcases List.mem_append.1 hp with h | h
      · exact hloop p h
      · rw [List.mem_singleton] at h
        subst h
        exact huv
    · rw [List.pairwise_append]
      refine ⟨hdup, List.pairwise_singleton _ _, ?_⟩
      intro p hp q hq
      rw [List.mem_singleton] at hq
      subst hq
      intro hsame
      rcases hsame with heq | ⟨ha, hb⟩
      · exact h1 (heq ▸ hp)
      · have hp' : p = (v, u) := Prod.ext ha hb
        exact h2 (hp' ▸ hp)

/-- The innermost loop body of `moore_2d_graph` keeps the edge list
simple: any edge it adds is guarded by `nid != n`. -/
theorem candidateStep_simple (size : Nat) (periodic : Bool) (n : Int)
    (E : List (Int × Int)) (r c : Int) (hE : SimpleEdgeList E) :
    SimpleEdgeList (candidateStep size periodic n E r c) := by
  unfold candidateStep
  split
  · exact hE
  · simp only
    split
    · next hne => exact add_edge_simple E n _ (Ne.symm hne) hE
    · exact hE

/-- The row loop body of `moore_2d_graph` keeps the edge list simple. -/
theorem rowStep_simple (size radius : Nat) (periodic : Bool) (n : Int)
    (E : List (Int × Int)) (r : Int) (hE : SimpleEdgeList E) :
    SimpleEdgeList (rowStep size radius periodic n E r) := by
  unfold rowStep
  split
  · exact hE
  · exact foldl_preserve (fun a b ha => candidateStep_simple size periodic n a r b ha) _ _ hE

end MooreTopology

/-! ## Claim theorems: scheduler and topology -/

/-- C1: for any sequence of `add(action)` calls, one `ActionManager.update()`
invokes every registered action's update exactly once (its visit list is a
permutation of the registered entries) and visits them in non-increasing
priority order: a lower priority never precedes a higher one. -/
theorem C1_update_visits_each_once_in_priority_order (adds : List ActionEntry) :
    (updateOrder (actionsAfter adds)).Perm adds ∧
    (updateOrder (actionsAfter adds)).Pairwise (fun x y => y.priority ≤ x.priority) := by
  constructor
  · exact (updateOrder_perm _).trans (actionsAfter_perm adds)
  · refine (updateOrder_sorted _).imp ?_
    intro x y h
    simp only [descLe, entryLt, Bool.not_eq_true', decide_eq_false_iff_not] at h
    omega

/-- C7 counterexample: two runs that register the same two actions (same
identities, same priorities) but whose objects happen to live at different
memory addresses visit the equal-priority actions in different orders, so
the tie-break is not reproducible across runs. -/
theorem C7_counterexample :
    (([⟨0, 5, 0⟩, ⟨0, 7, 1⟩] : List ActionEntry).map (fun e => (e.aid, e.priority)) =
      ([⟨0, 7, 0⟩, ⟨0, 5, 1⟩] : List ActionEntry).map (fun e => (e.aid, e.priority))) ∧
    (updateOrder (actionsAfter [⟨0, 5, 0⟩, ⟨0, 7, 1⟩])).map ActionEntry.aid ≠
      (updateOrder (actionsAfter [⟨0, 7, 0⟩, ⟨0, 5, 1⟩])).map ActionEntry.aid := by
  constructor
  · rfl
  · simp [updateOrder, actionsAfter, add_action, heappush, siftLoop, entryLt,
      descLe, List.mergeSort]

/-- C7 amended: `update()` and `teardown()` use the same visit order, which
is deterministic for a fixed assignment of object addresses: descending
lexicographically by (priority, object address), so equal priorities are
tie-broken by the runtime address comparison, not by an explicit documented
secondary order, and runs assigning different addresses may visit
equal-priority actions in different orders. -/
theorem C7_tiebreak_is_address_order (adds : List ActionEntry) :
    teardownOrder (actionsAfter adds) = updateOrder (actionsAfter adds) ∧
    (updateOrder (actionsAfter adds)).Pairwise
      (fun x y => y.priority < x.priority ∨
        (y.priority = x.priority ∧ y.addr ≤ x.addr)) := by
  refine ⟨rfl, (updateOrder_sorted _).imp ?_⟩
  intro x y h
  simp only [descLe, entryLt, Bool.not_eq_true', decide_eq_false_iff_not] at h
  omega

/-- C4: for node ids in `[0, size^2)` with positive `size`, decoding to
(row, column) and re-encoding with `node_id` returns the original id. -/
theorem C4_node_id_roundtrip (size : Nat) (id : Int) (_h1 : 0 < size)
    (_h2 : 0 ≤ id) (_h3 : id < (size : Int) * size) :
    MooreTopology.node_id size (MooreTopology.row size id)
      (MooreTopology.column size id) = id := by
  unfold MooreTopology.node_id MooreTopology.row MooreTopology.column
  rw [Int.mul_comm]
  exact Int.ediv_add_emod id (size : Int)

/-- C4 witness: the round-trip at size 3, id 7. -/
theorem C4_node_id_roundtrip_witness :
    MooreTopology.node_id 3 (MooreTopology.row 3 7) (MooreTopology.column 3 7) = 7 :=
  C4_node_id_roundtrip 3 7 (by decide) (by decide) (by decide)

/-- C5: with radius 1 and size 3, the non-periodic graph gives corner node 0
exactly the neighbors 1, 3, 4 and center node 4 exactly the other eight
nodes; the periodic graph gives every node exactly 8 distinct neighbors. -/
theorem C5_radius_one_moore_neighborhood :
    ((MooreTopology.neighbors (MooreTopology.moore_2d_graph 3 1 false) 0).toFinset =
        ({1, 3, 4} : Finset Int) ∧
      (MooreTopology.neighbors (MooreTopology.moore_2d_graph 3 1 false) 0).length = 3) ∧
    ((MooreTopology.neighbors (MooreTopology.moore_2d_graph 3 1 false) 4).toFinset =
        ({0, 1, 2, 3, 5, 6, 7, 8} : Finset Int) ∧
      (MooreTopology.neighbors (MooreTopology.moore_2d_graph 3 1 false) 4).length = 8) ∧
    (∀ n : Nat, n < 9 →
      (MooreTopology.neighbors (MooreTopology.moore_2d_graph 3 1 true)
        (n : Int)).toFinset.card = 8) := by
  set_option maxRecDepth 8000 in decide

/-- C5 witness: the periodic neighbor count, instantiated at node 5. -/
theorem C5_radius_one_moore_neighborhood_witness :
    (MooreTopology.neighbors (MooreTopology.moore_2d_graph 3 1 true)
      ((5 : Nat) : Int)).toFinset.card = 8 :=
  C5_radius_one_moore_neighborhood.2.2 5 (by decide)

/-- C6: for every size, radius and periodic flag, the graph built by
`moore_2d_graph` is simple: no self-loops and no duplicate edges. -/
theorem C6_moore_graph_simple (size radius : Nat) (periodic : Bool)
    (_h : 1 ≤ size) :
    MooreTopology.SimpleEdgeList (MooreTopology.moore_2d_graph size radius periodic) := by
  unfold MooreTopology.moore_2d_graph
  refine foldl_preserve ?_ _ _ ?_
  · intro a b ha
    exact foldl_preserve
      (fun a' b' ha' => MooreTopology.rowStep_simple size radius periodic _ a' b' ha') _ _ ha
  · exact ⟨fun p hp => absurd hp (List.not_mem_nil p), List.Pairwise.nil⟩

/-- C6 witness: the size-2 periodic radius-1 graph is simple. -/
theorem C6_moore_graph_simple_witness :
    1 ≤ 2 ∧ MooreTopology.SimpleEdgeList (MooreTopology.moore_2d_graph 2 1 true) :=
  ⟨by decide, C6_moore_graph_simple 2 1 true (by decide)⟩

/-! ## Helper lemmas for the Experiment lifecycle -/

/-- A successfully constructed Experiment is the literal initial state. -/
theorem initExperiment_ok (cfg : Config) (seedp : Int) (e0 : Experiment)
    (h : initExperiment cfg seedp = .ok e0) :
    e0 = { config := cfg, epoch := 0, is_setup := false, proceed := true,
           seed := seedp, resources := [], experiment_epochs := none,
           rngSeed := none, warnings := [], log := [] } := by
  unfold initExperiment at h
  split at h
  · cases h; rfl
  · cases h

/-- The fields of the state after a successful `setup`: the epoch, the
proceed flag and the log are untouched; `is_setup` is set; the epoch
budget is read from the config; the seed is resolved (constructor seed
unless it is -1, else configured seed unless it is -1, else the
time-derived value), fed to the random source, and written back. -/
theorem setup_ok_fields (t : Int) (s s' : Experiment) (h : s.setup t = .ok s') :
    s'.epoch = s.epoch ∧ s'.proceed = s.proceed ∧ s'.is_setup = true ∧
    s'.experiment_epochs = some s.config.epochs ∧
    s'.seed = resolveSeed t s ∧
    s'.rngSeed = some s'.seed ∧ s'.config.seed = s'.seed ∧ s'.log = s.log := by
  unfold Experiment.setup at h
  split at h
  · exact absurd h (by simp)
  · next res warns heq =>
    cases h
    simp [seedPhase]

/-- `update` on a set-up state is the pure cycle `updateReady`. -/
theorem update_of_setup (t : Int) (s : Experiment) (h : s.is_setup = true) :
    s.update t = .ok s.updateReady := by
  simp [Experiment.update, h]

/-- `updateReady` preserves `is_setup`, the epoch budget, the resources
and the proceed-irrelevant configuration, and increments the epoch. -/
theorem updateReady_fields (s : Experiment) :
    s.updateReady.epoch = s.epoch + 1 ∧ s.updateReady.is_setup = s.is_setup ∧
    s.updateReady.experiment_epochs = s.experiment_epochs ∧
    s.updateReady.resources = s.resources ∧ s.updateReady.config = s.config := by
  simp [Experiment.updateReady]

/-- The proceed flag after one cycle with epoch budget `E ≥ 0`. -/
theorem updateReady_proceed_bounded (s : Experiment) (E : Nat)
    (hE : s.experiment_epochs = some (E : Int)) :
    s.updateReady.proceed = if s.epoch + 1 ≥ E then false else s.proceed := by
  have hne : (E : Int) ≠ -1 := by omega
  by_cases hge : s.epoch + 1 ≥ E
  · have hc : ((s.epoch : Int) + 1 ≥ (E : Int)) := by exact_mod_cast hge
    simp [Experiment.updateReady, hE, hne, hc, hge]
  · have hc : ¬ ((s.epoch : Int) + 1 ≥ (E : Int)) := by exact_mod_cast hge
    simp [Experiment.updateReady, hE, hne, hc, hge]

/-- The proceed flag is untouched by a cycle when the epoch budget is
the unbounded marker -1. -/
theorem updateReady_proceed_unbounded (s : Experiment)
    (hE : s.experiment_epochs = some (-1)) :
    s.updateReady.proceed = s.proceed := by
  simp [Experiment.updateReady, hE]

/-- Running `k` updates on a set-up unbounded experiment succeeds and
adds exactly `k` to the epoch, leaving the proceed flag alone. -/
theorem runUpdates_unbounded (t : Int) (k : Nat) :
    ∀ s : Experiment, s.is_setup = true → s.experiment_epochs = some (-1) →
      ∃ sk, s.runUpdates t k = .ok sk ∧ sk.epoch = s.epoch + k ∧
        sk.proceed = s.proceed ∧ sk.is_setup = true ∧
        sk.experiment_epochs = some (-1) := by
  induction k with
  | zero =>
    intro s h1 h2
    exact ⟨s, rfl, rfl, rfl, h1, h2⟩
  | succ k ih =>
    intro s h1 h2
    obtain ⟨f1, f2, f3, f4, f5⟩ := updateReady_fields s
    obtain ⟨sk, hrun, he, hp, hs, hee⟩ :=
      ih s.updateReady (f2.trans h1) (f3.trans h2)
    refine ⟨sk, ?_, by omega, hp.trans (updateReady_proceed_unbounded s h2), hs, hee⟩
    simp only [Experiment.runUpdates, update_of_setup t s h1]
    exact hrun

/-- Running `k ≤ E - j` updates on a set-up experiment with epoch
budget `E`, current epoch `j` and proceed flag `j < E` succeeds, adds
`k` to the epoch, and leaves the proceed flag true exactly while the
epoch is below `E`. -/
theorem runUpdates_bounded (t : Int) (E : Nat) (k : Nat) :
    ∀ (j : Nat) (s : Experiment), s.is_setup = true →
      s.experiment_epochs = some (E : Int) → s.epoch = j →
      s.proceed = decide (j < E) → j + k ≤ E →
      ∃ sk, s.runUpdates t k = .ok sk ∧ sk.epoch = j + k ∧
        sk.proceed = decide (j + k < E) := by
  induction k with
  | zero =>
    intro j s h1 h2 h3 h4 h5
    refine ⟨s, rfl, by omega, ?_⟩
    rw [Nat.add_zero]
    exact h4
  | succ k ih =>
    intro j s h1 h2 h3 h4 h5
    obtain ⟨f1, f2, f3, f4, f5⟩ := updateReady_fields s
    have hp1 : s.updateReady.proceed = decide (j + 1 < E) := by
      rw [updateReady_proceed_bounded s E h2, h3, h4]
      by_cases hge : j + 1 ≥ E
      · rw [if_pos hge]
        have hnot : ¬ (j + 1 < E) := by omega
        simp [hnot]
      · rw [if_neg hge]
        have ha : j < E := by omega
        have hb : j + 1 < E := by omega
        simp [ha, hb]
    obtain ⟨sk, hrun, he, hp⟩ :=
      ih (j + 1) s.updateReady (f2.trans h1) (f3.trans h2) (by omega) hp1 (by omega)
    have hidx : j + 1 + k = j + (k + 1) := by omega
    rw [hidx] at he hp
    refine ⟨sk, ?_, he, hp⟩
    simp only [Experiment.runUpdates, update_of_setup t s h1]
    exact hrun

/-- Iterating a set-up experiment with epoch budget `E`, starting at
epoch `j ≤ E` with proceed flag `j < E`, yields exactly the epochs
`j+1, ..., E` given enough `next()` calls. -/
theorem iterEpochs_bounded (t : Int) (E : Nat) :
    ∀ (fuel j : Nat) (s : Experiment), s.is_setup = true →
      s.experiment_epochs = some (E : Int) → s.epoch = j →
      s.proceed = decide (j < E) → j ≤ E → E ≤ j + fuel →
      s.iterEpochs t fuel = (List.range (E - j)).map (fun i => j + 1 + i) := by
  intro fuel
  induction fuel with
  | zero =>
    intro j s h1 h2 h3 h4 h5 h6
    have hEj : E - j = 0 := by omega
    simp [Experiment.iterEpochs, hEj]
  | succ fuel ih =>
    intro j s h1 h2 h3 h4 h5 h6
    by_cases hj : j < E
    · have hnext : s.next t = .ok (some (j + 1, s.updateReady)) := by
        have hpt : ¬ s.proceed = false := by simp [h4, hj]
        simp only [Experiment.next, hpt, if_neg, update_of_setup t s h1]
        simp [(updateReady_fields s).1, h3]
      obtain ⟨f1, f2, f3, f4, f5⟩ := updateReady_fields s
      have hp1 : s.updateReady.proceed = decide (j + 1 < E) := by
        rw [updateReady_proceed_bounded s E h2, h3, h4]
        by_cases hge : j + 1 ≥ E
        · rw [if_pos hge]
          have hnot : ¬ (j + 1 < E) := by omega
          simp [hnot]
        · rw [if_neg hge]
          have ha : j < E := by omega
          have hb : j + 1 < E := by omega
          simp [ha, hb]
      have htail := ih (j + 1) s.updateReady (f2.trans h1) (f3.trans h2)
        (by omega) hp1 (by omega) (by omega)
      have hstep : s.iterEpochs t (fuel + 1) = (j + 1) :: s.updateReady.iterEpochs t fuel := by
        simp [Experiment.iterEpochs, hnext]
      rw [hstep, htail]
      have hr : E - j = (E - (j + 1)) + 1 := by omega
      rw [hr, List.range_succ_eq_map, List.map_cons, List.map_map]
      refine congrArg₂ List.cons (by omega) ?_
      refine List.map_congr_left (fun i _ => ?_)
      simp [Function.comp]
      omega
    · have hpf : s.proceed = false := by simp [h4, hj]
      have hnext : s.next t = .ok none := by simp [Experiment.next, hpf]
      have hEj : E - j = 0 := by omega
      simp [Experiment.iterEpochs, hnext, hEj]

/-! ## Claim theorems: experiment lifecycle -/

/-- C3: when the configured total-epochs is -1 (unbounded), after any number
`k ≥ 0` of calls to `update()` the epoch counter equals exactly `k` — each
update increments the epoch by exactly one, the counter is never reset or
decremented, and the run never stops by itself. -/
theorem C3_unbounded_epoch_equals_update_count (cfg : Config) (seedp t : Int)
    (k : Nat) (e0 s0 : Experiment)
    (hinit : initExperiment cfg seedp = .ok e0)
    (hsetup : e0.setup t = .ok s0)
    (hcfg : cfg.epochs = -1) :
    ∃ sk, e0.runUpdates t k = .ok sk ∧ sk.epoch = k ∧ sk.proceed = true := by
  have he0 := initExperiment_ok cfg seedp e0 hinit
  obtain ⟨g1, g2, g3, g4, g5, g6, g7, g8⟩ := setup_ok_fields t e0 s0 hsetup
  have hs0epoch : s0.epoch = 0 := by rw [g1, he0]
  have hs0proceed : s0.proceed = true := by rw [g2, he0]
  have hs0ee : s0.experiment_epochs = some (-1) := by
    rw [g4, he0]
    simp [hcfg]
  cases k with
  | zero =>
    refine ⟨e0, rfl, ?_, ?_⟩
    · rw [he0]
    · rw [he0]
  | succ k =>
    have hupd : e0.update t = .ok s0.updateReady := by
      have hns : e0.is_setup = false := by rw [he0]
      simp [Experiment.update, hns, hsetup]
    obtain ⟨f1, f2, f3, f4, f5⟩ := updateReady_fields s0
    obtain ⟨sk, hrun, hepoch, hproceed, _, _⟩ :=
      runUpdates_unbounded t k s0.updateReady (f2.trans g3) (f3.trans hs0ee)
    refine ⟨sk, ?_, ?_, ?_⟩
    · simp only [Experiment.runUpdates, hupd]
      exact hrun
    · omega
    · rw [hproceed, updateReady_proceed_unbounded s0 hs0ee, hs0proceed]

/-- C3 witness: three updates on an unbounded experiment reach epoch 3. -/
theorem C3_unbounded_witness :
    ∃ sk, Experiment.runUpdates 42
      { config := { sections := ["Experiment"] }, epoch := 0, is_setup := false,
        proceed := true, seed := -1, resources := [], experiment_epochs := none,
        rngSeed := none, warnings := [], log := [] } 3 = .ok sk ∧
      sk.epoch = 3 ∧ sk.proceed = true :=
  C3_unbounded_epoch_equals_update_count { sections := ["Experiment"] } (-1) 42 3
    { config := { sections := ["Experiment"] }, epoch := 0, is_setup := false,
      proceed := true, seed := -1, resources := [], experiment_epochs := none,
      rngSeed := none, warnings := [], log := [] }
    { config := { sections := ["Experiment"], seed := 42 }, epoch := 0,
      is_setup := true, proceed := true, seed := 42, resources := [],
      experiment_epochs := some (-1), rngSeed := some 42, warnings := [], log := [] }
    rfl rfl rfl

/-- C2 (amended): for a configured total-epochs `E ≥ 1`, iterating the
Experiment yields exactly the `E` values `1..E` and then signals exhaustion
(more fuel yields nothing further), and after `k ≤ E` updates the proceed
flag is true exactly while `k < E` — it becomes false exactly when the epoch
reaches `E`.  (For `E = 0` the claim fails; see the counterexample: one value
is yielded before exhaustion.) -/
theorem C2_bounded_iteration_yields_epochs (cfg : Config) (seedp t : Int)
    (E : Nat) (e0 s0 : Experiment)
    (hinit : initExperiment cfg seedp = .ok e0)
    (hsetup : e0.setup t = .ok s0)
    (hcfg : cfg.epochs = (E : Int))
    (hE : 1 ≤ E) :
    (∀ fuel, E ≤ fuel →
      s0.iterEpochs t fuel = (List.range E).map (fun i => i + 1)) ∧
    (∀ k, k ≤ E → ∃ sk, s0.runUpdates t k = .ok sk ∧ sk.epoch = k ∧
      sk.proceed = decide (k < E)) := by
  have he0 := initExperiment_ok cfg seedp e0 hinit
  obtain ⟨g1, g2, g3, g4, g5, g6, g7, g8⟩ := setup_ok_fields t e0 s0 hsetup
  have hpos : 0 < E := by omega
  have hs0epoch : s0.epoch = 0 := by rw [g1, he0]
  have hs0proceed : s0.proceed = decide (0 < E) := by
    rw [g2, he0]
    simp [hpos]
  have hs0ee : s0.experiment_epochs = some (E : Int) := by
    rw [g4, he0]
    simp [hcfg]
  constructor
  · intro fuel hfuel
    have hiter := iterEpochs_bounded t E fuel 0 s0 g3 hs0ee hs0epoch hs0proceed
      (by omega) (by omega)
    rw [hiter]
    simp only [Nat.sub_zero]
    exact List.map_congr_left (fun i _ => by omega)
  · intro k hk
    obtain ⟨sk, hrun, hepoch, hproceed⟩ := runUpdates_bounded t E k 0 s0 g3 hs0ee
      hs0epoch hs0proceed (by omega)
    rw [Nat.zero_add] at hepoch hproceed
    exact ⟨sk, hrun, hepoch, hproceed⟩

/-- C2 counterexample: with configured total-epochs 0, iterating the
Experiment yields the one value 1 (the first `next()` still sees proceed
true, runs an update taking the epoch to 1, and only then proceed turns
false), whereas the claim requires exactly zero values for E = 0. -/
theorem C2_counterexample :
    ((initExperiment { sections := ["Experiment"], epochs := 0 } (-1)).toOption.bind
      (fun e0 => (e0.setup 5).toOption)).map (fun s0 => s0.iterEpochs 5 3) =
      some [1] := by
  rfl

/-- C2 witness: with total-epochs 2, iteration with fuel 5 yields [1, 2]. -/
theorem C2_bounded_witness :
    Experiment.iterEpochs 9
      { config := { sections := ["Experiment"], seed := 9, epochs := 2 },
        epoch := 0, is_setup := true, proceed := true, seed := 9, resources := [],
        experiment_epochs := some 2, rngSeed := some 9, warnings := [], log := [] }
      5 = [1, 2] := by
  have h := C2_bounded_iteration_yields_epochs
    { sections := ["Experiment"], epochs := 2 } (-1) 9 2
    { config := { sections := ["Experiment"], epochs := 2 }, epoch := 0,
      is_setup := false, proceed := true, seed := -1, resources := [],
      experiment_epochs := none, rngSeed := none, warnings := [], log := [] }
    { config := { sections := ["Experiment"], seed := 9, epochs := 2 },
      epoch := 0, is_setup := true, proceed := true, seed := 9, resources := [],
      experiment_epochs := some 2, rngSeed := some 9, warnings := [], log := [] }
    rfl rfl (by decide) (by decide)
  have h2 := h.1 5 (by decide)
  have h3 : (List.range 2).map (fun i => i + 1) = [1, 2] := by decide
  rw [h3] at h2
  exact h2

/-- C8: `setup` resolves the seed in the order: constructor-supplied seed if
present (not -1), else configured seed if present (not -1), else the
time-derived decisecond value `t`; the resolved seed is written back to the
config and fed to the shared random source, whose state is then a function
of the resolved seed alone, so identical seeds reproduce identical
downstream randomness. -/
theorem C8_seed_resolution_order (cfg : Config) (seedp t : Int)
    (e0 s' : Experiment)
    (hinit : initExperiment cfg seedp = .ok e0)
    (hsetup : e0.setup t = .ok s') :
    s'.seed = (if seedp ≠ -1 then seedp
               else if cfg.seed ≠ -1 then cfg.seed else t) ∧
    s'.rngSeed = some s'.seed ∧ s'.config.seed = s'.seed := by
  have he0 := initExperiment_ok cfg seedp e0 hinit
  obtain ⟨g1, g2, g3, g4, g5, g6, g7, g8⟩ := setup_ok_fields t e0 s' hsetup
  refine ⟨?_, g6, g7⟩
  rw [g5, resolveSeed, he0]
  by_cases hp : seedp = -1
  · simp [hp]
  · simp [hp]

/-- C8 witness: constructor seed absent (-1), configured seed 7 wins over
the time value 99. -/
theorem C8_seed_resolution_witness :
    Experiment.seed
      { config := { sections := ["Experiment"], seed := 7 }, epoch := 0,
        is_setup := true, proceed := true, seed := 7, resources := [],
        experiment_epochs := some (-1), rngSeed := some 7, warnings := [],
        log := [] } =
      (if (-1 : Int) ≠ -1 then (-1 : Int)
       else if ({ sections := ["Experiment"], seed := 7 } : Config).seed ≠ -1
       then ({ sections := ["Experiment"], seed := 7 } : Config).seed else 99) :=
  (C8_seed_resolution_order { sections := ["Experiment"], seed := 7 } (-1) 99
    { config := { sections := ["Experiment"], seed := 7 }, epoch := 0,
      is_setup := false, proceed := true, seed := -1, resources := [],
      experiment_epochs := none, rngSeed := none, warnings := [], log := [] }
    { config := { sections := ["Experiment"], seed := 7 }, epoch := 0,
      is_setup := true, proceed := true, seed := 7, resources := [],
      experiment_epochs := some (-1), rngSeed := some 7, warnings := [],
      log := [] }
    rfl rfl).1

/-- C10: `update()` is not guarded by the proceed flag: on a set-up
experiment whose proceed flag is already false, `update()` still runs the
full cycle — scheduler update, every resource update, population update —
and increments the epoch by one (so the epoch can exceed the configured
total-epochs), while `next()` consults proceed and signals exhaustion. -/
theorem C10_update_unguarded_by_proceed (t : Int) (s : Experiment)
    (h1 : s.is_setup = true) (h2 : s.proceed = false) :
    s.update t = .ok s.updateReady ∧
    s.updateReady.epoch = s.epoch + 1 ∧
    s.updateReady.log = s.log ++ [Event.schedulerUpdate]
      ++ s.resources.map (fun p => Event.resourceUpdate p.1)
      ++ [Event.populationUpdate] ∧
    s.next t = .ok none := by
  refine ⟨update_of_setup t s h1, (updateReady_fields s).1, ?_, ?_⟩
  · simp [Experiment.updateReady]
  · simp [Experiment.next, h2]

/-- C10 witness: a stopped experiment at its epoch budget (epoch 2 of 2,
proceed already false) still updates to epoch 3 with a full cycle when
`update()` is called directly, while `next()` yields nothing. -/
theorem C10_update_unguarded_witness :
    Experiment.update 7
      { config := { sections := ["Experiment"], seed := 42, epochs := 2 },
        epoch := 2, is_setup := true, proceed := false, seed := 42,
        resources := [("R", ⟨"R", 0⟩)], experiment_epochs := some 2,
        rngSeed := some 42, warnings := [], log := [] } =
      .ok (Experiment.updateReady
        { config := { sections := ["Experiment"], seed := 42, epochs := 2 },
          epoch := 2, is_setup := true, proceed := false, seed := 42,
          resources := [("R", ⟨"R", 0⟩)], experiment_epochs := some 2,
          rngSeed := some 42, warnings := [], log := [] }) ∧
    Experiment.epoch (Experiment.updateReady
      { config := { sections := ["Experiment"], seed := 42, epochs := 2 },
        epoch := 2, is_setup := true, proceed := false, seed := 42,
        resources := [("R", ⟨"R", 0⟩)], experiment_epochs := some 2,
        rngSeed := some 42, warnings := [], log := [] }) = 2 + 1 ∧
    Experiment.log (Experiment.updateReady
      { config := { sections := ["Experiment"], seed := 42, epochs := 2 },
        epoch := 2, is_setup := true, proceed := false, seed := 42,
        resources := [("R", ⟨"R", 0⟩)], experiment_epochs := some 2,
        rngSeed := some 42, warnings := [], log := [] }) =
      [] ++ [Event.schedulerUpdate]
        ++ ([("R", (⟨"R", 0⟩ : Resource))].map (fun p => Event.resourceUpdate p.1))
        ++ [Event.populationUpdate] ∧
    Experiment.next 7
      { config := { sections := ["Experiment"], seed := 42, epochs := 2 },
        epoch := 2, is_setup := true, proceed := false, seed := 42,
        resources := [("R", ⟨"R", 0⟩)], experiment_epochs := some 2,
        rngSeed := some 42, warnings := [], log := [] } = .ok none :=
  C10_update_unguarded_by_proceed 7
    { config := { sections := ["Experiment"], seed := 42, epochs := 2 },
      epoch := 2, is_setup := true, proceed := false, seed := 42,
      resources := [("R", ⟨"R", 0⟩)], experiment_epochs := some 2,
      rngSeed := some 42, warnings := [], log := [] }
    rfl rfl

/-! ## Helper lemmas for resource registration (C9) -/

/-- Combined invariant of the resource-loading loop of `setup`, for a name
list whose configuration sections all exist: the loop succeeds; an
already-registered name keeps its binding; an unregistered name ends up
bound to the Resource constructed at its first occurrence (construction
counter `i` + position); registered keys stay duplicate-free; warnings only
grow; and a name that is already registered and listed, or listed twice,
leaves at least one warning. -/
theorem loadResourcesGo_spec (sections : List String) :
    ∀ (names : List String) (i : Nat) (acc : List (String × Resource))
      (warns : List String),
      (∀ res ∈ names, ("Resource:" ++ res) ∈ sections) →
      ∃ acc' warns',
        loadResourcesGo sections names i acc warns = .ok (acc', warns') ∧
        (∀ name r, acc.lookup name = some r → acc'.lookup name = some r) ∧
        (∀ name, acc.lookup name = none →
          acc'.lookup name =
            (names.indexOf? name).map (fun j => (⟨name, i + j⟩ : Resource))) ∧
        ((acc.map Prod.fst).Nodup → (acc'.map Prod.fst).Nodup) ∧
        (∃ extra, warns' = warns ++ extra) ∧
        (∀ name, name ∈ names → (acc.lookup name).isSome = true → warns' ≠ []) ∧
        (∀ name, 2 ≤ names.count name → warns' ≠ []) := by
  intro names
  induction names with
  | nil =>
    intro i acc warns _
    refine ⟨acc, warns, rfl, fun _ _ h => h, ?_, fun h => h, ⟨[], by simp⟩, ?_, ?_⟩
    · intro name h
      rw [h]
      rfl
    · intro name hmem
      simp at hmem
    · intro name hcount
      simp at hcount
  | cons res rest ih =>
    intro i acc warns hsec
    have hsec0 : ("Resource:" ++ res) ∈ sections := hsec res (List.mem_cons_self res rest)
    have hsecr : ∀ r ∈ rest, ("Resource:" ++ r) ∈ sections :=
      fun r hr => hsec r (List.mem_cons_of_mem res hr)
    by_cases hfresh : (acc.lookup res).isNone
    · -- the name is new: it gets registered with construction counter i
      have hnone : acc.lookup res = none := by
        cases hx : acc.lookup res
        · rfl
        · rw [hx] at hfresh; simp at hfresh
      obtain ⟨acc', warns', hrun, P1, P2, P3, P4, P5, P6⟩ :=
        ih (i + 1) (acc ++ [(res, ⟨res, i⟩)]) warns hsecr
      have hstep : loadResourcesGo sections (res :: rest) i acc warns =
          loadResourcesGo sections rest (i + 1) (acc ++ [(res, ⟨res, i⟩)]) warns := by
        simp [loadResourcesGo, hsec0, hfresh]
      have hl2 : ∀ name : String,
          (acc ++ [(res, (⟨res, i⟩ : Resource))]).lookup name =
            (acc.lookup name).or ([(res, (⟨res, i⟩ : Resource))].lookup name) :=
        fun name => List.lookup_append
      have hself : ([(res, (⟨res, i⟩ : Resource))].lookup res) = some ⟨res, i⟩ := by
        simp [List.lookup_cons]
      refine ⟨acc', warns', hstep.trans hrun, ?_, ?_, ?_, P4, ?_, ?_⟩
      · intro name r hr
        refine P1 name r ?_
        rw [hl2 name, hr]
        rfl
      · intro name hnone'
        by_cases heq : name = res
        · subst heq
          have hacc2 : (acc ++ [(name, (⟨name, i⟩ : Resource))]).lookup name =
              some ⟨name, i⟩ := by
            rw [hl2 name, hnone', Option.none_or]
            exact hself
          rw [P1 name ⟨name, i⟩ hacc2]
          rw [List.indexOf?_cons, if_pos (by simp)]
          simp
        · have hne : (name == res) = false := by
            simp [heq]
          have hacc2 : (acc ++ [(res, (⟨res, i⟩ : Resource))]).lookup name = none := by
            rw [hl2 name, hnone', Option.none_or]
            simp [List.lookup_cons, hne]
          rw [P2 name hacc2, List.indexOf?_cons, if_neg (by simp [Ne.symm heq])]
          cases hidx : List.indexOf? name rest with
          | none => simp
          | some j =>
            simp only [Option.map_some, Option.map_map]
            simp [Function.comp]
            omega
      · intro hnd
        refine P3 ?_
        rw [List.map_append, List.map_cons, List.map_nil, List.nodup_append]
        refine ⟨hnd, by simp, ?_⟩
        intro a ha hb
        simp at hb
        subst hb
        rw [List.lookup_eq_none_iff] at hnone
        obtain ⟨p, hp, hpe⟩ := List.mem_map.mp ha
        have hcontra := hnone p hp
        simp [hpe] at hcontra
      · intro name hmem hsome
        rcases List.mem_cons.mp hmem with heq | hmem'
        · subst heq
          rw [hnone] at hsome
          simp at hsome
        · refine P5 name hmem' ?_
          obtain ⟨r, hr⟩ := Option.isSome_iff_exists.mp hsome
          rw [hl2 name, hr]
          rfl
      · intro name hcount
        by_cases heq : name = res
        · subst heq
          have hpos : 0 < rest.count name := by
            have hcc : List.count name (name :: rest) = List.count name rest + 1 := by
              simp [List.count_cons]
            omega
          have hmem : name ∈ rest := List.count_pos_iff.mp hpos
          refine P5 name hmem ?_
          rw [hl2 name, hnone, Option.none_or, hself]
          rfl
        · have hcount' : 2 ≤ rest.count name := by
            have := List.count_cons name res rest
            have hne : (res == name) = false := by simp [Ne.symm heq]
            rw [hne] at this
            simp at this
            omega
          exact P6 name hcount'
    · -- duplicate: the name is already registered; warn and skip
      have hsome0 : (acc.lookup res).isSome = true := by
        cases hx : acc.lookup res
        · rw [hx] at hfresh; simp at hfresh
        · rfl
      obtain ⟨acc', warns', hrun, P1, P2, P3, P4, P5, P6⟩ :=
        ih (i + 1) acc
          (warns ++ ["Warning: Resource " ++ res ++ " listed twice.  Skipping duplicates."])
          hsecr
      have hstep : loadResourcesGo sections (res :: rest) i acc warns =
          loadResourcesGo sections rest (i + 1) acc
            (warns ++ ["Warning: Resource " ++ res ++ " listed twice.  Skipping duplicates."]) := by
        simp [loadResourcesGo, hsec0, hfresh]
      obtain ⟨extra, hex⟩ := P4
      have hwne : warns' ≠ [] := by
        rw [hex]
        simp
      refine ⟨acc', warns', hstep.trans hrun, P1, ?_, P3,
        ⟨(("Warning: Resource " ++ res ++ " listed twice.  Skipping duplicates.") :: extra),
          by rw [hex]; simp⟩, fun _ _ _ => hwne, fun _ _ => hwne⟩
      intro name hnone'
      by_cases heq : name = res
      · subst heq
        rw [hnone'] at hsome0
        simp at hsome0
      · rw [P2 name hnone', List.indexOf?_cons, if_neg (by simp [Ne.symm heq])]
        cases hidx : List.indexOf? name rest with
        | none => simp
        | some j =>
          simp only [Option.map_some, Option.map_map]
          simp [Function.comp]
          omega

/-- C9: if the configured resource list names the same resource twice (and
every listed resource has its configuration section), `setup` succeeds
(the duplicate is non-fatal), registers exactly one entry for that name,
bound to the Resource constructed at the name's first occurrence, and
reports the duplicate as a warning diagnostic. -/
theorem C9_duplicate_resource_first_wins (cfg : Config) (seedp t : Int)
    (e0 : Experiment) (name : String)
    (hinit : initExperiment cfg seedp = .ok e0)
    (hsec : ∀ res ∈ resourceList cfg, ("Resource:" ++ res) ∈ cfg.sections)
    (hdup : 2 ≤ (resourceList cfg).count name) :
    ∃ s', e0.setup t = .ok s' ∧
      s'.resources.lookup name =
        ((resourceList cfg).indexOf? name).map (fun j => (⟨name, j⟩ : Resource)) ∧
      (s'.resources.map Prod.fst).count name = 1 ∧
      s'.warnings ≠ [] := by
  have he0 := initExperiment_ok cfg seedp e0 hinit
  subst he0
  obtain ⟨acc', warns', hrun, P1, P2, P3, P4, P5, P6⟩ :=
    loadResourcesGo_spec cfg.sections (resourceList cfg) 0 [] [] hsec
  have hload : loadResources (seedPhase t
      { config := cfg, epoch := 0, is_setup := false, proceed := true,
        seed := seedp, resources := [], experiment_epochs := none,
        rngSeed := none, warnings := [], log := [] }).config = .ok (acc', warns') :=
    hrun
  unfold Experiment.setup
  rw [hload]
  have hlook : acc'.lookup name =
      ((resourceList cfg).indexOf? name).map (fun j => (⟨name, j⟩ : Resource)) := by
    have h2 := P2 name rfl
    simpa using h2
  have hmemL : name ∈ resourceList cfg := List.count_pos_iff.mp (by omega)
  have hidxSome : (resourceList cfg).indexOf? name ≠ none := by
    intro hcontra
    rw [List.indexOf?_eq_none_iff] at hcontra
    have := hcontra name hmemL
    simp at this
  refine ⟨_, rfl, hlook, ?_, ?_⟩
  · -- exactly one registered entry for the duplicated name
    have hnd : (acc'.map Prod.fst).Nodup := P3 (by simp)
    obtain ⟨j, hj⟩ := Option.ne_none_iff_exists'.mp hidxSome
    have hsome : acc'.lookup name = some ⟨name, j⟩ := by
      rw [hlook, hj]
      rfl
    have hmemK : name ∈ acc'.map Prod.fst := by
      have : (acc'.lookup name).isSome = true := by rw [hsome]; rfl
      obtain ⟨p, hp, hpe⟩ := List.lookup_isSome_iff.mp this
      have : p.1 = name := by
        have := beq_iff_eq.mp hpe
        exact this.symm
      exact this ▸ List.mem_map_of_mem Prod.fst hp
    exact List.count_eq_one_of_mem hnd hmemK
  · -- the duplicate is reported
    have hne := P6 name hdup
    simpa [seedPhase] using hne

/-- C9 witness: the resource list "R,R" registers one entry bound to the
first-constructed Resource and leaves a warning. -/
theorem C9_duplicate_resource_witness :
    ∃ s', Experiment.setup 5
      { config := { sections := ["Experiment", "Resource:R"],
                    resources := some "R,R" },
        epoch := 0, is_setup := false, proceed := true, seed := -1,
        resources := [], experiment_epochs := none, rngSeed := none,
        warnings := [], log := [] } = .ok s' ∧
      s'.resources.lookup "R" =
        ((resourceList { sections := ["Experiment", "Resource:R"],
                         resources := some "R,R" }).indexOf? "R").map
          (fun j => (⟨"R", j⟩ : Resource)) ∧
      (s'.resources.map Prod.fst).count "R" = 1 ∧
      s'.warnings ≠ [] :=
  C9_duplicate_resource_first_wins
    { sections := ["Experiment", "Resource:R"], resources := some "R,R" }
    (-1) 5
    { config := { sections := ["Experiment", "Resource:R"],
                  resources := some "R,R" },
      epoch := 0, is_setup := false, proceed := true, seed := -1,
      resources := [], experiment_epochs := none, rngSeed := none,
      warnings := [], log := [] }
    "R" rfl (by decide) (by decide)

end Seeds
